import Mathlib

/-!
# Verification of the russian_roulette persistent game-state store

Shallow embedding, in Lean 4, of the core of the `russian_roulette`
repository: the ledger document model (leaderboard, prize pool, player
stats, player balances), the storage write primitives
(`updateLeaderboardEntry`, `updatePrizePool`, `saveData` with its
empty-write guard), the on-chain deposit verification of the
`POST /api/game action=deposit` handler, and the prize-distribution
calculator.  Money amounts are modelled as rationals (`ℚ`), JS numbers
holding counters as integers (`ℤ`), and fallible operations return
`Except`.

Where a function referenced by the API route is not present in the
repository sources (the balance-ledger functions `addBalance`,
`deductBalance`, `approvePendingPrize`, `addPendingPrize`, and the
prize calculator `calculatePrizeDistributionForLeaderboard`), the
definition is modelled from the specification and marked as such in its
doc comment.  Everything else is translated directly from
`app/api/game/route.ts` and the `app/lib/storage.ts` variants contained
in the repository.
-/

namespace RR

/-- ASCII lowering of one character, the effect of JavaScript
`toLowerCase()` on the hex addresses and contract addresses this code
compares (all ASCII). -/
def charLower (c : Char) : Char :=
  if 65 ≤ c.toNat ∧ c.toNat ≤ 90 then Char.ofNat (c.toNat + 32) else c

/-- JavaScript `s.toLowerCase()`, embedded as a character-wise map so
that it evaluates inside the kernel. -/
def strLower (s : String) : String :=
  ⟨s.data.map charLower⟩

/-- A leaderboard entry, after `interface LeaderboardEntry` of
`app/api/game/route.ts` / `app/lib/storage.ts`.  `rank` is optional
(`rank?: number`) and is (re)assigned by `updateLeaderboardEntry`. -/
structure LeaderboardEntry where
  address : String
  username : Option String
  triggerPulls : Int
  deaths : Int
  maxStreak : Int
  rank : Option Nat
  isPaid : Bool
  lastPlayed : Int
deriving DecidableEq, Repr

/-- The prize pool record, after `prizePool` of `interface StorageData`. -/
structure PrizePool where
  totalAmount : ℚ
  participants : Int
  lastUpdated : Int
deriving DecidableEq, Repr

/-- The argument object accepted by `updatePrizePool` in
`app/lib/storage.ts`.  The absolute fields `totalAmount`/`participants`
are the ones of both storage-module variants present in the sources
(`EDGE_CONFIG_SETUP.md` and the `/tmp` variant), and are the fields the
`distributePrizes` reset call passes; the `incrementAmount` /
`incrementParticipants` fields are the atomic-increment extension
documented in `CRITICAL_RACE_CONDITION_FIX.md` and
`PRODUCTION_EDGE_CONFIG_SETUP.md` ("Added atomic increment to
updatePrizePool()") and are the fields the fixed `joinPrizePool`
handler passes. -/
structure PrizePoolUpdate where
  totalAmount : Option ℚ
  participants : Option Int
  incrementAmount : Option ℚ
  incrementParticipants : Option Int
deriving DecidableEq, Repr

/-- Function `updatePrizePool` of `app/lib/storage.ts`: loads the document,
replaces the pool with the merge of the old pool and the update, and
saves.  An absolute field, when present, overwrites; otherwise the
increment (defaulting to 0) is added to the freshly loaded value.
`lastUpdated` is set to `Date.now()`, passed here as `now`. -/
def updatePrizePool (now : Int) (u : PrizePoolUpdate) (p : PrizePool) : PrizePool :=
  { totalAmount :=
      match u.totalAmount with
      | some v => v
      | none => p.totalAmount + (u.incrementAmount.getD 0)
    participants :=
      match u.participants with
      | some v => v
      | none => p.participants + (u.incrementParticipants.getD 0)
    lastUpdated := now }

/-- The update passed by the fixed `joinPrizePool` handler
(`app/api/game/route.ts`): `{ incrementAmount: 1, incrementParticipants: 1 }`. -/
def joinPoolUpdate : PrizePoolUpdate :=
  ⟨none, none, some 1, some 1⟩

/-- The update passed by the `distributePrizes` handler after a
successful distribution (`app/api/game/route.ts`):
`{ totalAmount: 0, participants: 0 }`. -/
def resetPoolUpdate : PrizePoolUpdate :=
  ⟨some 0, some 0, none, none⟩

/-- One `joinPrizePool` call of the fixed route: an atomic
load-increment-save against the freshly loaded pool. -/
def joinPrizePoolNew (now : Int) (p : PrizePool) : PrizePool :=
  updatePrizePool now joinPoolUpdate p

/-- One `joinPrizePool` call of the original route
(`app/api/game/route.ts`, first version): the handler reads the pool
from the process-local cache (`getData()`), adds 1 to the values of
that possibly stale snapshot, and writes the result as an absolute
overwrite.  `stale` is the snapshot the handler computed from; `p` is
the pool actually persisted at write time (it is overwritten). -/
def joinPrizePoolOld (now : Int) (stale : PrizePool) (p : PrizePool) : PrizePool :=
  updatePrizePool now
    ⟨some (stale.totalAmount + 1), some (stale.participants + 1), none, none⟩ p

/-- The prize-pool reset performed by `distributePrizes` after the
payouts are computed and logged. -/
def distributeReset (now : Int) (p : PrizePool) : PrizePool :=
  updatePrizePool now resetPoolUpdate p

/-- Per-player statistics, after the stats objects built by
`app/api/game/route.ts` (`playerStats` values).  Every handler that
creates a default record fills all numeric fields with 0, so the fields
are total here. -/
structure PlayerStats where
  address : String
  triggerPulls : Int
  deaths : Int
  maxStreak : Int
  currentStreak : Int
  username : Option String
  isPaid : Bool
  lastPlayed : Int
deriving DecidableEq, Repr

/-- The client-submitted `stats` object of the `updateStats` action;
absent fields are `none`. -/
structure SubmittedStats where
  triggerPulls : Option Int
  deaths : Option Int
  maxStreak : Option Int
  isPaid : Option Bool
deriving DecidableEq, Repr

/-- JavaScript `a || b` on a number `a` that may be absent: `0` and
`undefined` are falsy, every other number is kept. -/
def jsOrInt (o : Option Int) (d : Int) : Int :=
  match o with
  | some v => if v = 0 then d else v
  | none => d

/-- JavaScript `a || b` on a string `a` that may be absent: `""` and
`undefined` are falsy. -/
def jsOrStr (o : Option String) (d : Option String) : Option String :=
  match o with
  | some v => if v = "" then d else some v
  | none => d

/-- The stat-mutating actions exposed by `POST /api/game`
(`app/api/game/route.ts`, server-authoritative version). -/
inductive GameOp where
  | updateStats (sub : SubmittedStats) (username : Option String)
  | triggerPull
  | death
  | cashout
  | setUsername (u : String)
  | joinPrizePool
deriving DecidableEq, Repr

/-- Effect of each `POST /api/game` action on the stored `playerStats`
record of the requesting address, translated handler by handler from
`app/api/game/route.ts`:
* `updateStats` merges the submitted stats (`stats.x || existing.x` for
  pulls/deaths, `Math.max(existing.maxStreak || 0, stats.maxStreak)`
  when `stats.maxStreak !== undefined`);
* `triggerPull` increments `triggerPulls` and `currentStreak`;
* `death` increments `deaths`, folds `currentStreak` into `maxStreak`
  via `Math.max`, and resets `currentStreak`;
* `cashout` sets `maxStreak` to `Math.max(existing.maxStreak || 0, 7)`
  and resets `currentStreak`;
* `setUsername` replaces the username;
* `joinPrizePool` marks the player paid. -/
def applyGameOp (now : Int) (op : GameOp) (s : PlayerStats) : PlayerStats :=
  match op with
  | .updateStats sub username =>
      { s with
        triggerPulls := jsOrInt sub.triggerPulls s.triggerPulls
        deaths := jsOrInt sub.deaths s.deaths
        maxStreak :=
          match sub.maxStreak with
          | some v => max s.maxStreak v
          | none => s.maxStreak
        isPaid := sub.isPaid.getD s.isPaid
        username := jsOrStr username s.username
        lastPlayed := now }
  | .triggerPull =>
      { s with
        triggerPulls := s.triggerPulls + 1
        currentStreak := s.currentStreak + 1
        lastPlayed := now }
  | .death =>
      { s with
        deaths := s.deaths + 1
        maxStreak := max s.maxStreak s.currentStreak
        currentStreak := 0
        lastPlayed := now }
  | .cashout =>
      { s with
        maxStreak := max s.maxStreak 7
        currentStreak := 0
        lastPlayed := now }
  | .setUsername u =>
      { s with username := some u, lastPlayed := now }
  | .joinPrizePool =>
      { s with isPaid := true }

/-- Kinds of ledger transactions, after the `type` field of the
transaction records described in `DEPOSIT_WITHDRAWAL_SYSTEM.md`. -/
inductive TxKind where
  | deposit
  | withdrawal
  | prize
  | entryFee
deriving DecidableEq, Repr

/-- One entry of a player's transaction history. -/
structure LedgerTx where
  kind : TxKind
  amount : ℚ
  timestamp : Int
  externalTxRef : Option String
deriving DecidableEq, Repr

/-- Per-player balance record, after `interface PlayerBalance` of
`app/api/init-game-data/route.ts`, extended with the append-only
`transactions` history described in `DEPOSIT_WITHDRAWAL_SYSTEM.md`. -/
structure PlayerBalance where
  balance : ℚ
  pendingPrizes : ℚ
  totalDeposited : ℚ
  totalWithdrawn : ℚ
  lastUpdated : Int
  transactions : List LedgerTx
deriving DecidableEq, Repr

/-- The lazily created default balance record for an address with no
prior activity. -/
def emptyBalance : PlayerBalance :=
  ⟨0, 0, 0, 0, 0, []⟩

/-- Typed failures of the balance ledger (spec §7). -/
inductive LedgerError where
  | insufficientBalance
  | insufficientPending
  | duplicateTransaction
deriving DecidableEq, Repr

/-- The successful-credit result: `balance += amount`, `totalDeposited`
grows for deposits, and a transaction record is appended. -/
def creditApplied (b : PlayerBalance) (amount : ℚ) (kind : TxKind)
    (ref : Option String) (now : Int) : PlayerBalance :=
  { balance := b.balance + amount
    pendingPrizes := b.pendingPrizes
    totalDeposited := if kind = .deposit then b.totalDeposited + amount else b.totalDeposited
    totalWithdrawn := b.totalWithdrawn
    lastUpdated := now
    transactions := b.transactions ++ [⟨kind, amount, now, ref⟩] }

/-- Modelled from the spec: the implementation of `addBalance`
(`app/lib/storage.ts`) is not under `src/` — only its call sites in
`app/api/game/route.ts` and its description in
`DEPOSIT_WITHDRAWAL_SYSTEM.md` are.  Modelled on Balance Ledger
`credit` (spec §4.3): `balance += amount`; if the kind is `deposit`,
`totalDeposited += amount`; a transaction record is appended; fails
with `DuplicateTransaction` if the supplied external transaction
reference already appears in the address's transaction history.  (The
route calls it as `addBalance(address, usdValue, 'deposit')`, i.e. with
no reference.) -/
def addBalance (b : PlayerBalance) (amount : ℚ) (kind : TxKind)
    (ref : Option String) (now : Int) : Except LedgerError PlayerBalance :=
  match ref with
  | some r =>
      if b.transactions.any (fun t => t.externalTxRef = some r) then
        .error .duplicateTransaction
      else
        .ok (creditApplied b amount kind (some r) now)
  | none => .ok (creditApplied b amount kind none now)

/-- Modelled from the spec: the implementation of `deductBalance`
(`app/lib/storage.ts`) is not under `src/` — only its call sites and
`DEPOSIT_WITHDRAWAL_SYSTEM.md` are.  Modelled on Balance Ledger `debit`
(spec §4.3): fails with `InsufficientBalance` if `balance < amount`;
otherwise `balance -= amount`, and for withdrawals
`totalWithdrawn += amount`. -/
def deductBalance (b : PlayerBalance) (amount : ℚ) (kind : TxKind)
    (now : Int) : Except LedgerError PlayerBalance :=
  if b.balance < amount then
    .error .insufficientBalance
  else
    .ok { balance := b.balance - amount
          pendingPrizes := b.pendingPrizes
          totalDeposited := b.totalDeposited
          totalWithdrawn :=
            if kind = .withdrawal then b.totalWithdrawn + amount else b.totalWithdrawn
          lastUpdated := now
          transactions := b.transactions ++ [⟨kind, amount, now, none⟩] }

/-- Modelled from the spec: the implementation of `addPendingPrize`
(`app/lib/storage.ts`) is not under `src/`.  Modelled on spec §4.3:
`pendingPrizes += amount`; `balance` untouched. -/
def addPendingPrize (b : PlayerBalance) (amount : ℚ) (now : Int) : PlayerBalance :=
  { b with pendingPrizes := b.pendingPrizes + amount, lastUpdated := now }

/-- Modelled from the spec: the implementation of `approvePendingPrize`
(`app/lib/storage.ts`) is not under `src/` — only its call site in the
`approvePrize` handler is.  Modelled on spec §4.3: fails with
`InsufficientPending` if `pendingPrizes < amount`; otherwise the amount
moves from `pendingPrizes` to `balance`. -/
def approvePendingPrize (b : PlayerBalance) (amount : ℚ)
    (now : Int) : Except LedgerError PlayerBalance :=
  if b.pendingPrizes < amount then
    .error .insufficientPending
  else
    .ok { balance := b.balance + amount
          pendingPrizes := b.pendingPrizes - amount
          totalDeposited := b.totalDeposited
          totalWithdrawn := b.totalWithdrawn
          lastUpdated := now
          transactions := b.transactions ++ [⟨.prize, amount, now, none⟩] }

/-- On-chain verification failures of the deposit handler
(`app/api/game/route.ts`), one per rejecting branch. -/
inductive DepositError where
  | txFailedOnChain
  | senderMismatch
  | recipientMismatch
  | notUsdcTransfer
deriving DecidableEq, Repr

/-- Error taxonomy surfaced by the API route to its caller. -/
inductive GameError where
  | invalidInput
  | guardRejected
  | depositErr (e : DepositError)
  | ledgerErr (e : LedgerError)
deriving DecidableEq, Repr

/-- The currencies accepted by the deposit handler. -/
inductive Currency where
  | eth
  | usdc
deriving DecidableEq, Repr

/-- What `publicClient.getTransaction` returns for the claimed hash:
`tx.from`, `tx.to` (nullable) and `tx.value` in wei. -/
structure EthTxView where
  sender : String
  toAddr : Option String
  valueWei : ℚ
deriving DecidableEq, Repr

/-- One receipt log entry: the emitting contract address, and the
result of `decodeEventLog` against the ERC-20 `Transfer` event —
`some (from, to, rawValue)` if the log decodes, `none` if decoding
throws (the handler then skips the log). -/
structure TransferLogView where
  logAddress : String
  decoded : Option (String × String × ℚ)
deriving DecidableEq, Repr

/-- What `publicClient.getTransactionReceipt` returns:
`receipt.status === 'success'`, `receipt.to` (nullable), and the logs. -/
structure ReceiptView where
  statusSuccess : Bool
  toAddr : Option String
  logs : List TransferLogView
deriving DecidableEq, Repr

/-- Deployment configuration of the deposit handler: the USDC contract
address, `DEPOSIT_WALLET` (an environment variable that may be unset),
the hardcoded `ETH_DEPOSIT_WALLET`, and the hardcoded
`ETH_PRICE_USD = 3000` conversion rate. -/
structure DepositConfig where
  usdcAddress : String
  depositWallet : Option String
  ethDepositWallet : String
  ethPriceUsd : ℚ
deriving DecidableEq, Repr

/-- The USDC branch's log scan (`app/api/game/route.ts`): iterate the
receipt logs, and take `from`, `to` and `value` from the first log that
is emitted by the USDC contract and decodes as a `Transfer` event; if
none matches, the loop leaves the initial values
`transferFrom = ''`, `transferTo = ''`, `transferAmount = 0`. -/
def findUsdcTransfer (usdcAddress : String) :
    List TransferLogView → String × String × ℚ
  | [] => ("", "", 0)
  | log :: rest =>
      if strLower log.logAddress = strLower usdcAddress then
        match log.decoded with
        | some t => t
        | none => findUsdcTransfer usdcAddress rest
      else
        findUsdcTransfer usdcAddress rest

/-- The verification phase of the deposit handler
(`app/api/game/route.ts`), returning the verified
`(transferAmount, usdValue)` on success:
* reject if the receipt status is not `success`;
* ETH: read `(from, to, value)` from the transaction, convert wei to
  ETH (`/ 1e18`), reject on case-insensitive sender mismatch with the
  claimed address, reject if the recipient is not `ETH_DEPOSIT_WALLET`,
  and convert to USD with the hardcoded rate;
* USDC: reject if the receipt's `to` is not the USDC contract, decode
  the first matching `Transfer` log, convert raw units to USDC
  (`/ 1e6`), then the same sender and recipient checks against
  `DEPOSIT_WALLET` (USDC is 1:1 with USD). -/
def verifyDeposit (cfg : DepositConfig) (currency : Currency)
    (address : String) (receipt : ReceiptView) (tx : EthTxView) :
    Except DepositError (ℚ × ℚ) :=
  if receipt.statusSuccess = false then
    .error .txFailedOnChain
  else
    match currency with
    | .eth =>
        let transferFrom := tx.sender
        let transferTo := tx.toAddr.getD ""
        let transferAmount := tx.valueWei / 1000000000000000000
        if strLower transferFrom ≠ strLower address then
          .error .senderMismatch
        else if strLower transferTo ≠ strLower cfg.ethDepositWallet then
          .error .recipientMismatch
        else
          .ok (transferAmount, transferAmount * cfg.ethPriceUsd)
    | .usdc =>
        let receiptToOk : Bool :=
          match receipt.toAddr with
          | some t => strLower t = strLower cfg.usdcAddress
          | none => false
        if receiptToOk then
          let found := findUsdcTransfer cfg.usdcAddress receipt.logs
          let transferFrom := found.1
          let transferTo := found.2.1
          let transferAmount := found.2.2 / 1000000
          if strLower transferFrom ≠ strLower address then
            .error .senderMismatch
          else
            let recipientOk : Bool :=
              match cfg.depositWallet with
              | some w => strLower transferTo = strLower w
              | none => false
            if recipientOk then
              .ok (transferAmount, transferAmount)
            else
              .error .recipientMismatch
        else
          .error .notUsdcTransfer

/-- The deposit handler after verification (`app/api/game/route.ts`):
the comparison of the verified `transferAmount` with the
client-supplied `expectedAmount` (`Math.abs(transferAmount -
expectedAmount) > 0.0001`) only logs a warning and never blocks, and
the amount credited is the verified `usdValue`, via
`addBalance(address, usdValue, 'deposit')` — the transaction hash is
not passed to the ledger. -/
def depositAction (cfg : DepositConfig) (currency : Currency)
    (address : String) (expectedAmount : ℚ) (receipt : ReceiptView)
    (tx : EthTxView) (b : PlayerBalance) (now : Int) :
    Except GameError PlayerBalance :=
  match verifyDeposit cfg currency address receipt tx with
  | .error e => .error (.depositErr e)
  | .ok (_, usdValue) =>
      match addBalance b usdValue .deposit none now with
      | .error e => .error (.ledgerErr e)
      | .ok b2 => .ok b2

/-- A `playerBalances` map, address → balance record. -/
abbrev BalanceStore := List (String × PlayerBalance)

/-- Read path `getPlayerBalance`: the stored record, or the lazily created
default for a first-time address. -/
def getStoredBalance (store : BalanceStore) (address : String) : PlayerBalance :=
  match store.find? (fun p => p.1 = address) with
  | some p => p.2
  | none => emptyBalance

/-- Replace (or create) the record of `address`. -/
def setStoredBalance (store : BalanceStore) (address : String)
    (b : PlayerBalance) : BalanceStore :=
  match store with
  | [] => [(address, b)]
  | p :: rest =>
      if p.1 = address then (address, b) :: rest
      else p :: setStoredBalance rest address b

/-- The balance-touching operations exposed by `POST /api/game`,
with the verified deposit abstracted to its credited `usdValue`. -/
inductive BalanceOp where
  | deposit (usdValue : ℚ)
  | withdraw (amount : ℚ)
  | entryFee (amount : ℚ)
  | addPending (amount : ℚ)
  | approvePrize (amount : ℚ)
deriving DecidableEq, Repr

/-- The amount a balance operation moves. -/
def balanceOpAmount : BalanceOp → ℚ
  | .deposit v => v
  | .withdraw v => v
  | .entryFee v => v
  | .addPending v => v
  | .approvePrize v => v

/-- One balance operation against the persisted document, including
the route's input guard (`!amount || amount <= 0` is rejected for
withdrawals and prize approvals) and the failure semantics: a typed
ledger failure aborts the whole mutation, so the store is returned
unchanged — there is no partial debit. -/
def runBalanceOp (store : BalanceStore) (address : String)
    (op : BalanceOp) (now : Int) : BalanceStore × Except GameError PlayerBalance :=
  let b := getStoredBalance store address
  match op with
  | .deposit v =>
      match addBalance b v .deposit none now with
      | .ok b2 => (setStoredBalance store address b2, .ok b2)
      | .error e => (store, .error (.ledgerErr e))
  | .withdraw v =>
      if v ≤ 0 then (store, .error .invalidInput)
      else
        match deductBalance b v .withdrawal now with
        | .ok b2 => (setStoredBalance store address b2, .ok b2)
        | .error e => (store, .error (.ledgerErr e))
  | .entryFee v =>
      match deductBalance b v .entryFee now with
      | .ok b2 => (setStoredBalance store address b2, .ok b2)
      | .error e => (store, .error (.ledgerErr e))
  | .addPending v =>
      let b2 := addPendingPrize b v now
      (setStoredBalance store address b2, .ok b2)
  | .approvePrize v =>
      if v ≤ 0 then (store, .error .invalidInput)
      else
        match approvePendingPrize b v now with
        | .ok b2 => (setStoredBalance store address b2, .ok b2)
        | .error e => (store, .error (.ledgerErr e))

/-- Invariant: `balance ≥ 0` and `pendingPrizes ≥ 0` for every stored record. -/
def BalanceInv (store : BalanceStore) : Prop :=
  ∀ p ∈ store, 0 ≤ p.2.balance ∧ 0 ≤ p.2.pendingPrizes

/-- The whole persisted `game-data` document, after
`interface StorageData` of `app/api/init-game-data/route.ts`. -/
structure StorageData where
  free : List LeaderboardEntry
  paid : List LeaderboardEntry
  prizePool : PrizePool
  playerStats : List (String × PlayerStats)
  playerBalances : BalanceStore
deriving Repr

/-- Total leaderboard entry count, as computed by the `saveData` guard:
`(leaderboard?.free?.length || 0) + (leaderboard?.paid?.length || 0)`. -/
def entryCount (d : StorageData) : Nat :=
  d.free.length + d.paid.length

/-- Function `saveData` of `app/lib/storage.ts` with the empty-write guard of
`PRODUCTION_EDGE_CONFIG_SETUP.md`: before writing, the current document
is fetched from the backend (`current`, absent if the key does not
exist); if the current document has leaderboard entries and the new one
has none, the function logs and `return`s without writing.  The result
is the pair (document written, error surfaced to the caller): the
TypeScript function returns `void` and never throws on a guard trip, so
the error component is always `none`. -/
def saveData (current : Option StorageData) (d : StorageData) :
    Option StorageData × Option GameError :=
  match current with
  | some c =>
      if 0 < entryCount c ∧ entryCount d = 0 then
        (none, none)
      else
        (some d, none)
  | none => (some d, none)

/-- The leaderboard comparator of `updateLeaderboardEntry`
(`app/lib/storage.ts`): `a` sorts no later than `b` iff the JS
comparator returns `≤ 0`, i.e. `maxStreak` descending, then
`triggerPulls` descending, then `deaths` ascending. -/
def entryLe (a b : LeaderboardEntry) : Prop :=
  b.maxStreak < a.maxStreak ∨
    (a.maxStreak = b.maxStreak ∧
      (b.triggerPulls < a.triggerPulls ∨
        (a.triggerPulls = b.triggerPulls ∧ a.deaths ≤ b.deaths)))

instance : DecidableRel entryLe := fun a b => by
  unfold entryLe
  infer_instance

instance : IsTotal LeaderboardEntry entryLe :=
  ⟨fun a b => by unfold entryLe; omega⟩

instance : IsTrans LeaderboardEntry entryLe :=
  ⟨fun a b c => by unfold entryLe; omega⟩

/-- Lower-cased address of an entry, the key of the case-insensitive
duplicate check in `updateLeaderboardEntry`. -/
def lowerAddr (e : LeaderboardEntry) : String :=
  strLower e.address

/-- The `findIndex`/`splice(index, 1)` step of `updateLeaderboardEntry`:
remove the first entry whose lower-cased address equals `addr`. -/
def removeFirstAddr (addr : String) : List LeaderboardEntry → List LeaderboardEntry
  | [] => []
  | e :: rest =>
      if strLower e.address = addr then rest
      else e :: removeFirstAddr addr rest

/-- Overwrite an entry's `rank` field. -/
def setRank (n : Nat) (e : LeaderboardEntry) : LeaderboardEntry :=
  { e with rank := some n }

/-- The `board.forEach((entry, idx) => entry.rank = idx + 1)` step:
assign ranks `n, n+1, …` by position. -/
def assignRanksFrom (n : Nat) : List LeaderboardEntry → List LeaderboardEntry
  | [] => []
  | e :: rest => setRank n e :: assignRanksFrom (n + 1) rest

/-- Function `updateLeaderboardEntry` of `app/lib/storage.ts` (Edge Config
variant, `EDGE_CONFIG_SETUP.md`): remove any existing entry for the
address (case-insensitive), append the new entry, sort by the
comparator, reassign ranks `1..N` by position, and keep only the top
50. -/
def updateLeaderboardEntry (board : List LeaderboardEntry)
    (entry : LeaderboardEntry) : List LeaderboardEntry :=
  let removed := removeFirstAddr (strLower entry.address) board
  let appended := removed ++ [entry]
  let sorted := List.insertionSort entryLe appended
  let ranked := assignRanksFrom 1 sorted
  ranked.take 50

/-- A whole sequence of upserts into one leaderboard partition,
starting from the empty partition. -/
def applyUpserts (es : List LeaderboardEntry) : List LeaderboardEntry :=
  es.foldl updateLeaderboardEntry []

/-- A ranked participant as passed to the prize calculator by the
`distributePrizes` handler (built from the paid leaderboard entries). -/
structure PrizeParticipant where
  address : String
  maxStreak : Int
  totalPulls : Int
  totalDeaths : Int
deriving DecidableEq, Repr

/-- The participant ordering of the prize calculator — the same key as
the leaderboard: `maxStreak` descending, pulls descending, deaths
ascending. -/
def participantLe (a b : PrizeParticipant) : Prop :=
  b.maxStreak < a.maxStreak ∨
    (a.maxStreak = b.maxStreak ∧
      (b.totalPulls < a.totalPulls ∨
        (a.totalPulls = b.totalPulls ∧ a.totalDeaths ≤ b.totalDeaths)))

instance : DecidableRel participantLe := fun a b => by
  unfold participantLe
  infer_instance

instance : IsTotal PrizeParticipant participantLe :=
  ⟨fun a b => by unfold participantLe; omega⟩

instance : IsTrans PrizeParticipant participantLe :=
  ⟨fun a b c => by unfold participantLe; omega⟩

/-- Payout share of the participant at 0-based position `i` of the
ranked list of length `n`: 40% / 25% / 15% of the pool for the top
three ranks, and an equal split of the 10% lower-ranks share for
ranks 4 and below. -/
def payoutForRank (total : ℚ) (n : Nat) (i : Nat) : ℚ :=
  if i = 0 then total * (40 / 100)
  else if i = 1 then total * (25 / 100)
  else if i = 2 then total * (15 / 100)
  else (total * (10 / 100)) / ((n : ℚ) - 3)

/-- Payout records for the ranked suffix starting at position `i`. -/
def payoutsFrom (total : ℚ) (n : Nat) : Nat → List PrizeParticipant → List (String × ℚ)
  | _, [] => []
  | i, p :: ps => (p.address, payoutForRank total n i) :: payoutsFrom total n (i + 1) ps

/-- Modelled from the spec: `calculatePrizeDistributionForLeaderboard`
(`app/utils/prizeDistribution.ts`) is not under `src/` — only its call
site in the `distributePrizes` handler and the algorithm notes in
`CHANGELOG.md` ("40% / 25% / 15% / 10% / 10%; top 3 get fixed
percentages, remaining 10% split among other players, 10% kept by
house") are.  Modelled on spec §4.5: re-rank the participants with the
leaderboard ordering, pay 40% / 25% / 15% of the pool to the top three,
split a further 10% equally among all participants ranked 4th and
below (not distributed when there are none), and retain the final 10%
(operator share, never paid out). -/
def calculatePrizeDistributionForLeaderboard (total : ℚ)
    (ps : List PrizeParticipant) : List (String × ℚ) :=
  let ranked := List.insertionSort participantLe ps
  payoutsFrom total ranked.length 0 ranked

/-- The invariant of a leaderboard partition: sorted by the comparator,
ranks exactly `1..N` by position, and lower-cased addresses pairwise
distinct. -/
def GoodBoard (b : List LeaderboardEntry) : Prop :=
  List.Sorted entryLe b ∧
  b.map LeaderboardEntry.rank = (List.range' 1 b.length).map some ∧
  (b.map lowerAddr).Nodup

/-! ### Concrete sample data, used by counterexamples and witnesses -/

/-- A sample leaderboard entry. -/
def sampleEntry : LeaderboardEntry :=
  ⟨"0xAAA", none, 5, 1, 3, some 1, false, 0⟩

/-- A persisted document holding one leaderboard entry. -/
def dataNonEmpty : StorageData :=
  ⟨[sampleEntry], [], ⟨0, 0, 0⟩, [], []⟩

/-- A document whose leaderboard partitions are both empty. -/
def dataEmpty : StorageData :=
  ⟨[], [], ⟨0, 0, 0⟩, [], []⟩

/-- A sample deployment configuration for the deposit handler. -/
def cfgSample : DepositConfig :=
  ⟨"0xusdc", some "0xdep", "0xethdep", 3000⟩

/-- A decodable USDC `Transfer` log: 10 USDC (raw `10_000_000`) from
`0xaaa` to the deposit wallet. -/
def goodLog : TransferLogView :=
  ⟨"0xusdc", some ("0xaaa", "0xdep", 10000000)⟩

/-- A successful receipt for a 10 USDC transfer from `0xaaa`. -/
def receiptSample : ReceiptView :=
  ⟨true, some "0xusdc", [goodLog]⟩

/-- A receipt whose decoded transfer is from `0xbbb`, not the claiming
address. -/
def receiptBadSender : ReceiptView :=
  ⟨true, some "0xusdc", [⟨"0xusdc", some ("0xbbb", "0xdep", 10000000)⟩]⟩

/-- A receipt whose decoded transfer pays `0xelse`, not the configured
deposit wallet. -/
def receiptBadRecipient : ReceiptView :=
  ⟨true, some "0xusdc", [⟨"0xusdc", some ("0xaaa", "0xelse", 10000000)⟩]⟩

/-- A sample ETH transaction of 2 ETH from `0xaaa` to the ETH deposit
wallet (irrelevant to the USDC branch, which ignores it). -/
def txSample : EthTxView :=
  ⟨"0xaaa", some "0xethdep", 2000000000000000000⟩

/-- Balance of `0xaaa` after the sample 10 USDC deposit is credited
once. -/
def balAfterOne : PlayerBalance :=
  creditApplied emptyBalance 10 .deposit none 1

/-- Balance of `0xaaa` after the identical deposit claim is credited a
second time. -/
def balAfterTwo : PlayerBalance :=
  creditApplied balAfterOne 10 .deposit none 2

/-- A sample balance store: `0xaaa` holds a balance of 5 and pending
prizes of 2. -/
def storeSample : BalanceStore :=
  [("0xaaa", ⟨5, 2, 5, 0, 0, []⟩)]

/-- The ranked participants of the 4-player distribution round-trip. -/
def participants4 : List PrizeParticipant :=
  [⟨"0xa", 10, 30, 1⟩, ⟨"0xb", 9, 25, 2⟩, ⟨"0xc", 8, 20, 3⟩, ⟨"0xd", 7, 15, 4⟩]

/-- The ranked participants of the 5-player distribution round-trip. -/
def participants5 : List PrizeParticipant :=
  participants4 ++ [⟨"0xe", 6, 10, 5⟩]

/-! ## Theorems -/

open List

/-- C9: two `joinPrizePool` calls of the fixed route, each an
independent load-mutate-save sequence applying `+1` as a relative delta
to the freshly loaded pool, compose to `{totalAmount: 2, participants:
2}` from the start pool `{0, 0}` — neither increment is lost.  By
contrast, the original route's two calls, each computing an absolute
overwrite from the same stale snapshot `{0, 0}`, collapse to
`{1, 1}`. -/
theorem joinPrizePool_two_increments_give_two (t1 t2 : Int) :
    joinPrizePoolNew t2 (joinPrizePoolNew t1 ⟨0, 0, 0⟩) = ⟨2, 2, t2⟩ ∧
    joinPrizePoolOld t2 ⟨0, 0, 0⟩ (joinPrizePoolOld t1 ⟨0, 0, 0⟩ ⟨0, 0, 0⟩)
      = ⟨1, 1, t2⟩ := by
  constructor
  · simp [joinPrizePoolNew, updatePrizePool, joinPoolUpdate]
    norm_num
  · simp [joinPrizePoolOld, updatePrizePool]

/-- C2, counterexample: the pool reset performed by `distributePrizes`
is the unconditional write `{totalAmount: 0, participants: 0}`.  With
the pool at `{100, 4}` when the distribution is calculated and a
concurrent join landing before the reset (pool `{101, 5}`), the reset
leaves `{0, 0}` — not the `{1, 1}` that a relative decrement of the
distributed amount `100` would leave: the join's contribution is
wiped. -/
theorem distributeReset_wipes_concurrent_join :
    distributeReset 2 (joinPrizePoolNew 1 ⟨100, 4, 0⟩) = ⟨0, 0, 2⟩ ∧
    joinPrizePoolNew 1 ⟨100, 4, 0⟩ = ⟨101, 5, 1⟩ ∧
    (distributeReset 2 (joinPrizePoolNew 1 ⟨100, 4, 0⟩)).totalAmount
      ≠ (joinPrizePoolNew 1 ⟨100, 4, 0⟩).totalAmount - 100 := by
  refine ⟨?_, ?_, ?_⟩
  · simp [distributeReset, joinPrizePoolNew, updatePrizePool, resetPoolUpdate, joinPoolUpdate]
  · simp [joinPrizePoolNew, updatePrizePool, joinPoolUpdate]
    norm_num
  · simp [distributeReset, joinPrizePoolNew, updatePrizePool, resetPoolUpdate, joinPoolUpdate]

/-- C2, amended: after a successful distribution the route resets the
prize pool with the unconditional write `{totalAmount: 0, participants:
0}` — the result is `{0, 0}` whatever the pool holds at reset time, so
a pool contribution that arrives between the distribution calculation
and the reset is wiped, not preserved. -/
theorem distributeReset_unconditional_zero_set (now : Int) (p : PrizePool) :
    distributeReset now p = ⟨0, 0, now⟩ := by
  simp [distributeReset, updatePrizePool, resetPoolUpdate]

/-- C10: no exposed stat-mutating operation ever lowers a player's
stored `maxStreak`: `updateStats` merges with
`Math.max(existing, submitted)`, `death` with
`Math.max(existing, currentStreak)`, `cashout` with
`Math.max(existing, 7)`, and the remaining operations leave the field
untouched. -/
theorem maxStreak_monotone :
    (∀ (now : Int) (op : GameOp) (s : PlayerStats),
        s.maxStreak ≤ (applyGameOp now op s).maxStreak) ∧
    (∀ (now : Int) (sub : SubmittedStats) (u : Option String) (s : PlayerStats),
        (applyGameOp now (.updateStats sub u) s).maxStreak
          = match sub.maxStreak with
            | some v => max s.maxStreak v
            | none => s.maxStreak) ∧
    (∀ (now : Int) (s : PlayerStats),
        (applyGameOp now .death s).maxStreak = max s.maxStreak s.currentStreak) ∧
    (∀ (now : Int) (s : PlayerStats),
        (applyGameOp now .cashout s).maxStreak = max s.maxStreak 7) := by
  refine ⟨?_, ?_, ?_, ?_⟩
  · intro now op s
    cases op with
    | updateStats sub u =>
        cases h : sub.maxStreak with
        | some v => simp [applyGameOp, h, le_max_left]
        | none => simp [applyGameOp, h]
    | triggerPull => simp [applyGameOp]
    | death => simp [applyGameOp, le_max_left]
    | cashout => simp [applyGameOp, le_max_left]
    | setUsername u => simp [applyGameOp]
    | joinPrizePool => simp [applyGameOp]
  · intro now sub u s
    cases h : sub.maxStreak with
    | some v => simp [applyGameOp, h]
    | none => simp [applyGameOp, h]
  · intro now s
    simp [applyGameOp]
  · intro now s
    simp [applyGameOp]

/-- C8: over a pool of 100, the prize calculator pays
`[40, 25, 15, 10]` to 4 ranked participants (the 4th receives the
whole 10% lower-ranks share) and `[40, 25, 15, 5, 5]` to 5 (the share
split equally between ranks 4 and 5); in both cases the payouts sum to
90, so the remaining 10% operator share is never paid out. -/
theorem distribution_roundtrip_payouts :
    (calculatePrizeDistributionForLeaderboard 100 participants4).map Prod.snd
      = [40, 25, 15, 10] ∧
    (calculatePrizeDistributionForLeaderboard 100 participants5).map Prod.snd
      = [40, 25, 15, 5, 5] ∧
    (((calculatePrizeDistributionForLeaderboard 100 participants4).map Prod.snd).sum
      = 90 ∧
     ((calculatePrizeDistributionForLeaderboard 100 participants5).map Prod.snd).sum
      = 90) := by
  refine ⟨?_, ?_, ?_, ?_⟩ <;>
    norm_num [calculatePrizeDistributionForLeaderboard, List.insertionSort,
      List.orderedInsert, payoutsFrom, payoutForRank, participants4, participants5,
      participantLe]

/-- C4, counterexample: a save that would shrink the leaderboard from 1
entry to 0 is blocked by the guard (nothing is written), but the
TypeScript `saveData` just `return`s — the caller receives no error at
all, in particular no `GuardRejected`: the skip is silent apart from a
console log. -/
theorem saveData_guard_gives_caller_no_error :
    saveData (some dataNonEmpty) dataEmpty = (none, none) ∧
    (saveData (some dataNonEmpty) dataEmpty).2 ≠ some .guardRejected := by
  constructor
  · simp [saveData, entryCount, dataNonEmpty, dataEmpty]
  · simp [saveData, entryCount, dataNonEmpty, dataEmpty]

/-- C4, amended: a mutate whose resulting document would reduce the
total leaderboard entry count from `N > 0` to 0 is not persisted — the
empty-write guard skips the write — but the rejection is only logged:
the save returns normally and no `GuardRejected` error is reported to
the caller. -/
theorem saveData_guard_blocks_without_error (c d : StorageData)
    (hc : 0 < entryCount c) (hd : entryCount d = 0) :
    saveData (some c) d = (none, none) := by
  simp [saveData, hc, hd]

/-- Witness for the amended C4 theorem at the sample documents. -/
theorem saveData_guard_blocks_without_error_witness :
    0 < entryCount dataNonEmpty ∧ entryCount dataEmpty = 0 ∧
    saveData (some dataNonEmpty) dataEmpty = (none, none) :=
  ⟨by simp [entryCount, dataNonEmpty],
   by simp [entryCount, dataEmpty],
   saveData_guard_blocks_without_error dataNonEmpty dataEmpty
     (by simp [entryCount, dataNonEmpty]) (by simp [entryCount, dataEmpty])⟩

/-- The balance and pending-prize fields of a freshly read (possibly
lazily created) record are nonnegative whenever the store invariant
holds. -/
theorem getStoredBalance_nonneg (store : BalanceStore) (address : String)
    (h : BalanceInv store) :
    0 ≤ (getStoredBalance store address).balance ∧
    0 ≤ (getStoredBalance store address).pendingPrizes := by
  unfold getStoredBalance
  cases hf : store.find? (fun p => p.1 = address) with
  | some p =>
      simp only []
      exact h p (List.mem_of_find?_eq_some hf)
  | none =>
      simp [emptyBalance]

/-- Replacing one record by a nonnegative one preserves the store
invariant. -/
theorem balanceInv_setStoredBalance (store : BalanceStore) (address : String)
    (b : PlayerBalance) (h : BalanceInv store)
    (hb : 0 ≤ b.balance) (hp : 0 ≤ b.pendingPrizes) :
    BalanceInv (setStoredBalance store address b) := by
  induction store with
  | nil =>
      intro p hpmem
      simp [setStoredBalance] at hpmem
      simp [hpmem, hb, hp]
  | cons q rest ih =>
      intro p hpmem
      by_cases hq : q.1 = address
      · simp [setStoredBalance, hq] at hpmem
        rcases hpmem with h1 | h2
        · simp [h1, hb, hp]
        · exact h p (List.mem_cons_of_mem q h2)
      · simp [setStoredBalance, hq] at hpmem
        rcases hpmem with h1 | h2
        · exact h p (h1 ▸ List.mem_cons_self q rest)
        · have hrest : BalanceInv rest := fun r hr => h r (List.mem_cons_of_mem q hr)
          exact ih hrest p h2

/-- C3: after any exposed balance operation, every stored record still
has `balance ≥ 0` and `pendingPrizes ≥ 0`; a withdrawal or entry-fee
deduction that would overdraw the balance fails the whole mutation with
`InsufficientBalance` and leaves the store unchanged, and a
pending-prize approval that exceeds the pending amount fails with
`InsufficientPending` and leaves the store unchanged — there is no
partial debit. -/
theorem balances_never_negative (store : BalanceStore) (address : String)
    (op : BalanceOp) (now : Int)
    (hinv : BalanceInv store) (hpos : 0 < balanceOpAmount op) :
    BalanceInv (runBalanceOp store address op now).1 ∧
    (∀ v, op = .withdraw v → (getStoredBalance store address).balance < v →
        runBalanceOp store address op now
          = (store, .error (.ledgerErr .insufficientBalance))) ∧
    (∀ v, op = .entryFee v → (getStoredBalance store address).balance < v →
        runBalanceOp store address op now
          = (store, .error (.ledgerErr .insufficientBalance))) ∧
    (∀ v, op = .approvePrize v → (getStoredBalance store address).pendingPrizes < v →
        runBalanceOp store address op now
          = (store, .error (.ledgerErr .insufficientPending))) := by
  obtain ⟨hb, hp⟩ := getStoredBalance_nonneg store address hinv
  refine ⟨?_, ?_, ?_, ?_⟩
  · cases op with
    | deposit v =>
        simp only [balanceOpAmount] at hpos
        simp only [runBalanceOp, addBalance]
        exact balanceInv_setStoredBalance store address _ hinv
          (add_nonneg hb hpos.le) hp
    | withdraw v =>
        simp only [balanceOpAmount] at hpos
        simp only [runBalanceOp]
        rw [if_neg (not_le.mpr hpos)]
        by_cases hlt : (getStoredBalance store address).balance < v
        · simp only [deductBalance, if_pos hlt]
          exact hinv
        · simp only [deductBalance, if_neg hlt]
          exact balanceInv_setStoredBalance store address _ hinv
            (sub_nonneg.mpr (not_lt.mp hlt)) hp
    | entryFee v =>
        simp only [balanceOpAmount] at hpos
        simp only [runBalanceOp]
        by_cases hlt : (getStoredBalance store address).balance < v
        · simp only [deductBalance, if_pos hlt]
          exact hinv
        · simp only [deductBalance, if_neg hlt]
          exact balanceInv_setStoredBalance store address _ hinv
            (sub_nonneg.mpr (not_lt.mp hlt)) hp
    | addPending v =>
        simp only [balanceOpAmount] at hpos
        simp only [runBalanceOp, addPendingPrize]
        exact balanceInv_setStoredBalance store address _ hinv hb
          (add_nonneg hp hpos.le)
    | approvePrize v =>
        simp only [balanceOpAmount] at hpos
        simp only [runBalanceOp]
        rw [if_neg (not_le.mpr hpos)]
        by_cases hlt : (getStoredBalance store address).pendingPrizes < v
        · simp only [approvePendingPrize, if_pos hlt]
          exact hinv
        · simp only [approvePendingPrize, if_neg hlt]
          exact balanceInv_setStoredBalance store address _ hinv
            (add_nonneg hb hpos.le) (sub_nonneg.mpr (not_lt.mp hlt))
  · intro v heq hlt
    subst heq
    simp only [balanceOpAmount] at hpos
    simp only [runBalanceOp]
    rw [if_neg (not_le.mpr hpos)]
    simp only [deductBalance, if_pos hlt]
  · intro v heq hlt
    subst heq
    simp only [runBalanceOp, deductBalance, if_pos hlt]
  · intro v heq hlt
    subst heq
    simp only [balanceOpAmount] at hpos
    simp only [runBalanceOp]
    rw [if_neg (not_le.mpr hpos)]
    simp only [approvePendingPrize, if_pos hlt]

/-- Witness for C3 at a concrete store: `0xaaa` holds balance 5, so a
withdrawal of 10 is rejected with `InsufficientBalance` and the store
is unchanged. -/
theorem balances_never_negative_witness :
    BalanceInv storeSample ∧
    runBalanceOp storeSample "0xaaa" (.withdraw 10) 1
      = (storeSample, .error (.ledgerErr .insufficientBalance)) := by
  have hinv : BalanceInv storeSample := by
    intro p hpmem
    simp [storeSample] at hpmem
    simp [hpmem]
  refine ⟨hinv, ?_⟩
  have h := balances_never_negative storeSample "0xaaa" (.withdraw 10) 1 hinv
    (by norm_num [balanceOpAmount])
  exact h.2.1 10 rfl (by norm_num [getStoredBalance, storeSample])

/-- C6: deposit verification rejects, before any credit, a transfer
whose on-chain sender differs case-insensitively from the claimed
address (sender mismatch), and one whose recipient differs from the
configured deposit wallet (recipient mismatch) — in the ETH branch
against `ETH_DEPOSIT_WALLET`, in the USDC branch against
`DEPOSIT_WALLET` — with no constraint on the transferred or expected
amounts. -/
theorem deposit_rejects_mismatched_sender_recipient
    (cfg : DepositConfig) (address : String) (receipt : ReceiptView)
    (tx : EthTxView) (b : PlayerBalance) (now : Int) (expectedAmount : ℚ)
    (hstatus : receipt.statusSuccess = true) :
    (strLower tx.sender ≠ strLower address →
        depositAction cfg .eth address expectedAmount receipt tx b now
          = .error (.depositErr .senderMismatch)) ∧
    (strLower tx.sender = strLower address →
      strLower (tx.toAddr.getD "") ≠ strLower cfg.ethDepositWallet →
        depositAction cfg .eth address expectedAmount receipt tx b now
          = .error (.depositErr .recipientMismatch)) ∧
    (∀ contractAddr f t raw,
      receipt.toAddr = some contractAddr →
      strLower contractAddr = strLower cfg.usdcAddress →
      findUsdcTransfer cfg.usdcAddress receipt.logs = (f, t, raw) →
      strLower f ≠ strLower address →
        depositAction cfg .usdc address expectedAmount receipt tx b now
          = .error (.depositErr .senderMismatch)) ∧
    (∀ contractAddr f t raw w,
      receipt.toAddr = some contractAddr →
      strLower contractAddr = strLower cfg.usdcAddress →
      findUsdcTransfer cfg.usdcAddress receipt.logs = (f, t, raw) →
      strLower f = strLower address →
      cfg.depositWallet = some w →
      strLower t ≠ strLower w →
        depositAction cfg .usdc address expectedAmount receipt tx b now
          = .error (.depositErr .recipientMismatch)) := by
  refine ⟨?_, ?_, ?_, ?_⟩
  · intro hs
    simp [depositAction, verifyDeposit, hstatus, hs]
  · intro hs hr
    simp [depositAction, verifyDeposit, hstatus, hs, hr]
  · intro contractAddr f t raw hto hto2 hfind hs
    simp [depositAction, verifyDeposit, hstatus, hto, hto2, hfind, hs]
  · intro contractAddr f t raw w hto hto2 hfind hs hw hr
    simp [depositAction, verifyDeposit, hstatus, hto, hto2, hfind, hs, hw, hr]

/-- Witness for C6 at concrete receipts: a 10 USDC transfer whose
decoded sender is `0xbbb` while `0xaaa` claims it is rejected with a
sender mismatch, and one paying `0xelse` instead of the deposit wallet
is rejected with a recipient mismatch. -/
theorem deposit_rejects_mismatch_witness :
    depositAction cfgSample .usdc "0xaaa" 10 receiptBadSender txSample emptyBalance 1
      = .error (.depositErr .senderMismatch) ∧
    depositAction cfgSample .usdc "0xaaa" 10 receiptBadRecipient txSample emptyBalance 1
      = .error (.depositErr .recipientMismatch) := by
  constructor
  · exact (deposit_rejects_mismatched_sender_recipient cfgSample "0xaaa"
      receiptBadSender txSample emptyBalance 1 10 (by decide)).2.2.1
      "0xusdc" "0xbbb" "0xdep" 10000000 (by decide) (by decide)
      (by decide) (by decide)
  · exact (deposit_rejects_mismatched_sender_recipient cfgSample "0xaaa"
      receiptBadRecipient txSample emptyBalance 1 10 (by decide)).2.2.2
      "0xusdc" "0xaaa" "0xelse" 10000000 "0xdep" (by decide) (by decide)
      (by decide) (by decide) (by decide) (by decide)

/-- C7: once verification passes, an on-chain transfer amount that
differs from the client-supplied `expectedAmount` by more than the
`0.0001` tolerance is still credited — the mismatch only produces a
console warning — and the amount credited is the verified `usdValue`
derived from the on-chain transfer (`transferAmount` for USDC,
`transferAmount * ETH_PRICE_USD` for ETH), never the client-claimed
`expectedAmount`: the handler's result does not depend on
`expectedAmount` at all. -/
theorem deposit_credits_onchain_amount
    (cfg : DepositConfig) (currency : Currency) (address : String)
    (receipt : ReceiptView) (tx : EthTxView) (b : PlayerBalance) (now : Int)
    (expectedAmount amt usd : ℚ)
    (hv : verifyDeposit cfg currency address receipt tx = .ok (amt, usd))
    (hmis : 1 / 10000 < |amt - expectedAmount|) :
    depositAction cfg currency address expectedAmount receipt tx b now
      = .ok (creditApplied b usd .deposit none now) ∧
    (creditApplied b usd .deposit none now).balance = b.balance + usd ∧
    (∀ e2 : ℚ, depositAction cfg currency address e2 receipt tx b now
        = depositAction cfg currency address expectedAmount receipt tx b now) ∧
    (currency = .usdc → usd = amt) ∧
    (currency = .eth → usd = amt * cfg.ethPriceUsd) := by
  refine ⟨?_, rfl, fun e2 => rfl, ?_, ?_⟩
  · simp [depositAction, hv, addBalance]
  · intro hc
    subst hc
    simp only [verifyDeposit] at hv
    split at hv
    · exact absurd hv (by simp)
    · split at hv
      · split at hv
        · exact absurd hv (by simp)
        · split at hv
          · simp only [Except.ok.injEq, Prod.mk.injEq] at hv
            rw [← hv.1, ← hv.2]
          · exact absurd hv (by simp)
      · exact absurd hv (by simp)
  · intro hc
    subst hc
    simp only [verifyDeposit] at hv
    split at hv
    · exact absurd hv (by simp)
    · split at hv
      · exact absurd hv (by simp)
      · split at hv
        · exact absurd hv (by simp)
        · simp only [Except.ok.injEq, Prod.mk.injEq] at hv
          rw [← hv.1, ← hv.2]

/-- Witness for C7: the sample verified 10 USDC transfer claimed with
`expectedAmount = 20` (mismatch of 10, far beyond the 0.0001
tolerance) is still credited, for the verified amount 10. -/
theorem deposit_credits_onchain_amount_witness :
    depositAction cfgSample .usdc "0xaaa" 20 receiptSample txSample emptyBalance 1
      = .ok (creditApplied emptyBalance 10 .deposit none 1) ∧
    (creditApplied emptyBalance 10 .deposit none 1).balance
      = emptyBalance.balance + 10 := by
  have hv : verifyDeposit cfgSample .usdc "0xaaa" receiptSample txSample
      = .ok (10, 10) := by
    simp only [verifyDeposit, cfgSample, receiptSample, goodLog, findUsdcTransfer]
    norm_num
  have h := deposit_credits_onchain_amount cfgSample .usdc "0xaaa"
    receiptSample txSample emptyBalance 1 20 10 10 hv (by norm_num)
  exact ⟨h.1, h.2.1⟩

/-- C1 (evaluation at the failing input): the deposit handler performs
no duplicate-transaction check — the transaction hash is not even
passed to `addBalance` — so submitting the same verified
`(address, transactionHash)` twice credits the balance twice: after the
first call the balance is 10, after the second it is 20, and the second
call does not fail with `DuplicateTransaction`. -/
theorem deposit_same_reference_credits_twice :
    depositAction cfgSample .usdc "0xaaa" 10 receiptSample txSample emptyBalance 1
      = .ok balAfterOne ∧
    depositAction cfgSample .usdc "0xaaa" 10 receiptSample txSample balAfterOne 2
      = .ok balAfterTwo ∧
    balAfterOne.balance = 10 ∧
    balAfterTwo.balance = 20 ∧
    depositAction cfgSample .usdc "0xaaa" 10 receiptSample txSample balAfterOne 2
      ≠ .error (.ledgerErr .duplicateTransaction) := by
  have hv : verifyDeposit cfgSample .usdc "0xaaa" receiptSample txSample
      = .ok (10, 10) := by
    simp only [verifyDeposit, cfgSample, receiptSample, goodLog, findUsdcTransfer]
    norm_num
  have h1 : depositAction cfgSample .usdc "0xaaa" 10 receiptSample txSample
      emptyBalance 1 = .ok balAfterOne := by
    simp [depositAction, hv, addBalance, balAfterOne]
  have h2 : depositAction cfgSample .usdc "0xaaa" 10 receiptSample txSample
      balAfterOne 2 = .ok balAfterTwo := by
    simp [depositAction, hv, addBalance, balAfterTwo]
  refine ⟨h1, h2, ?_, ?_, ?_⟩
  · norm_num [balAfterOne, creditApplied, emptyBalance]
  · norm_num [balAfterTwo, balAfterOne, creditApplied, emptyBalance]
  · rw [h2]
    simp

/-- The comparator only reads `maxStreak`, `triggerPulls` and `deaths`,
so rank reassignment does not disturb it. -/
theorem entryLe_setRank (i j : Nat) (a b : LeaderboardEntry) :
    entryLe (setRank i a) (setRank j b) ↔ entryLe a b :=
  Iff.rfl

/-- Every member of a rank-assigned list is a rank-assigned member of
the original list. -/
theorem mem_assignRanksFrom {b : LeaderboardEntry} :
    ∀ {n : Nat} {l : List LeaderboardEntry}, b ∈ assignRanksFrom n l →
      ∃ c ∈ l, ∃ k, b = setRank k c := by
  intro n l
  induction l generalizing n with
  | nil =>
      intro h
      simp [assignRanksFrom] at h
  | cons a rest ih =>
      intro h
      simp only [assignRanksFrom, List.mem_cons] at h
      rcases h with h | h
      · exact ⟨a, List.mem_cons_self a rest, n, h⟩
      · obtain ⟨c, hc, k, hk⟩ := ih h
        exact ⟨c, List.mem_cons_of_mem a hc, k, hk⟩

/-- Rank reassignment preserves sortedness. -/
theorem sorted_assignRanksFrom (l : List LeaderboardEntry) :
    ∀ n, List.Sorted entryLe l → List.Sorted entryLe (assignRanksFrom n l) := by
  induction l with
  | nil =>
      intro n _
      simp [assignRanksFrom]
  | cons a rest ih =>
      intro n h
      rw [List.sorted_cons] at h
      simp only [assignRanksFrom, List.sorted_cons]
      refine ⟨?_, ih (n + 1) h.2⟩
      intro b hb
      obtain ⟨c, hc, k, rfl⟩ := mem_assignRanksFrom hb
      exact (entryLe_setRank n k a c).mpr (h.1 c hc)

/-- After rank reassignment starting at `n`, the rank column reads
`n, n+1, …` by position. -/
theorem map_rank_assignRanksFrom (l : List LeaderboardEntry) :
    ∀ n, (assignRanksFrom n l).map LeaderboardEntry.rank
      = (List.range' n l.length).map some := by
  induction l with
  | nil =>
      intro n
      simp [assignRanksFrom]
  | cons a rest ih =>
      intro n
      simp only [assignRanksFrom, List.map_cons, List.length_cons,
        List.range'_succ, ih (n + 1), setRank]

/-- Rank reassignment does not change the address column. -/
theorem map_lowerAddr_assignRanksFrom (l : List LeaderboardEntry) :
    ∀ n, (assignRanksFrom n l).map lowerAddr = l.map lowerAddr := by
  induction l with
  | nil =>
      intro n
      simp [assignRanksFrom]
  | cons a rest ih =>
      intro n
      simp only [assignRanksFrom, List.map_cons, ih (n + 1)]
      rfl

/-- Removing the first matching entry yields a sublist. -/
theorem removeFirstAddr_sublist (addr : String) :
    ∀ l, removeFirstAddr addr l <+ l := by
  intro l
  induction l with
  | nil =>
      simp [removeFirstAddr]
  | cons a rest ih =>
      simp only [removeFirstAddr]
      by_cases h : strLower a.address = addr
      · rw [if_pos h]
        exact List.sublist_cons_self a rest
      · rw [if_neg h]
        exact ih.cons₂ a

/-- On a duplicate-free board, removing the first entry with address
`addr` removes every occurrence of `addr`. -/
theorem not_mem_removeFirstAddr (addr : String) :
    ∀ l : List LeaderboardEntry, (l.map lowerAddr).Nodup →
      addr ∉ (removeFirstAddr addr l).map lowerAddr := by
  intro l
  induction l with
  | nil =>
      intro _
      simp [removeFirstAddr]
  | cons a rest ih =>
      intro hnd
      simp only [List.map_cons, List.nodup_cons] at hnd
      simp only [removeFirstAddr]
      by_cases h : strLower a.address = addr
      · rw [if_pos h]
        rw [← h]
        exact hnd.1
      · rw [if_neg h]
        simp only [List.map_cons, List.mem_cons]
        push_neg
        refine ⟨?_, ih hnd.2⟩
        intro heq
        exact h heq.symm

/-- Rank reassignment does not change the length. -/
theorem length_assignRanksFrom (l : List LeaderboardEntry) :
    ∀ n, (assignRanksFrom n l).length = l.length := by
  induction l with
  | nil =>
      intro n
      simp [assignRanksFrom]
  | cons a rest ih =>
      intro n
      simp only [assignRanksFrom, List.length_cons, ih (n + 1)]

/-- Taking a prefix of `range'` truncates the count. -/
theorem take_range' : ∀ (m s n : Nat),
    (List.range' s n).take m = List.range' s (min m n) := by
  intro m s n
  induction n generalizing m s with
  | zero =>
      simp
  | succ k ih =>
      cases m with
      | zero => simp
      | succ j =>
          simp only [List.range'_succ, List.take_succ_cons, ih j (s + 1),
            Nat.succ_min_succ]

/-- One upsert into a duplicate-free partition yields a partition that
is sorted, exactly ranked `1..N`, and duplicate-free. -/
theorem updateLeaderboardEntry_good (board : List LeaderboardEntry)
    (e : LeaderboardEntry) (h : (board.map lowerAddr).Nodup) :
    GoodBoard (updateLeaderboardEntry board e) := by
  have hue : updateLeaderboardEntry board e
      = List.take 50 (assignRanksFrom 1 (List.insertionSort entryLe
          (removeFirstAddr (strLower e.address) board ++ [e]))) := rfl
  have hnodup_removed :
      ((removeFirstAddr (strLower e.address) board).map lowerAddr).Nodup :=
    h.sublist ((removeFirstAddr_sublist (strLower e.address) board).map lowerAddr)
  have hnotmem := not_mem_removeFirstAddr (strLower e.address) board h
  have happ :
      ((removeFirstAddr (strLower e.address) board ++ [e]).map lowerAddr).Nodup := by
    rw [List.map_append, List.nodup_append]
    refine ⟨hnodup_removed, List.nodup_singleton _, ?_⟩
    intro x hx hx2
    simp only [List.map_cons, List.map_nil, List.mem_singleton] at hx2
    rw [hx2] at hx
    exact hnotmem hx
  have hperm := List.perm_insertionSort entryLe
    (removeFirstAddr (strLower e.address) board ++ [e])
  have hsorted := List.sorted_insertionSort entryLe
    (removeFirstAddr (strLower e.address) board ++ [e])
  have hnodup_sorted :
      ((List.insertionSort entryLe
        (removeFirstAddr (strLower e.address) board ++ [e])).map lowerAddr).Nodup :=
    ((hperm.map lowerAddr).nodup_iff).mpr happ
  have hsorted_ranked := sorted_assignRanksFrom _ 1 hsorted
  have hrank := map_rank_assignRanksFrom
    (List.insertionSort entryLe (removeFirstAddr (strLower e.address) board ++ [e])) 1
  have hlower := map_lowerAddr_assignRanksFrom
    (List.insertionSort entryLe (removeFirstAddr (strLower e.address) board ++ [e])) 1
  rw [hue]
  refine ⟨?_, ?_, ?_⟩
  · exact hsorted_ranked.sublist (List.take_sublist 50 _)
  · rw [List.map_take, hrank, ← List.map_take, take_range', List.length_take,
      length_assignRanksFrom]
  · have hr : ((assignRanksFrom 1 (List.insertionSort entryLe
        (removeFirstAddr (strLower e.address) board ++ [e]))).map lowerAddr).Nodup := by
      rw [hlower]
      exact hnodup_sorted
    exact hr.sublist ((List.take_sublist 50 _).map lowerAddr)

/-- The partition invariant carries through any sequence of upserts. -/
theorem goodBoard_foldl :
    ∀ (es : List LeaderboardEntry) (board : List LeaderboardEntry),
      GoodBoard board → GoodBoard (es.foldl updateLeaderboardEntry board) := by
  intro es
  induction es with
  | nil =>
      intro board h
      exact h
  | cons e rest ih =>
      intro board h
      rw [List.foldl_cons]
      exact ih _ (updateLeaderboardEntry_good board e h.2.2)

/-- C5: after any sequence of upserts into a leaderboard partition, the
partition is sorted by `maxStreak` descending, then `triggerPulls`
descending, then `deaths` ascending; the `rank` fields are exactly
`1..N` by position, with no gaps or duplicates; and each lower-cased
address appears at most once — an upsert replaces an existing entry for
its address instead of duplicating it. -/
theorem leaderboard_sorted_ranked_unique (es : List LeaderboardEntry) :
    List.Sorted entryLe (applyUpserts es) ∧
    (applyUpserts es).map LeaderboardEntry.rank
      = (List.range' 1 (applyUpserts es).length).map some ∧
    ((applyUpserts es).map lowerAddr).Nodup := by
  have h0 : GoodBoard [] := ⟨List.sorted_nil, by simp, List.nodup_nil⟩
  exact goodBoard_foldl es [] h0

end RR
